import Mathlib

/-!
Shallow embedding of the `resource-usage-sdk` crate
(`src/crates/resource-usage-sdk/src/{statistics,show,scval_tools,rpc_server,error}.rs`).

Machine integers (`u32`, `u64`, `usize`) are modelled as `Nat`, signed integers
(`i32`, `i64`) as `Int`; the only place the code's fixed width matters is the
`u128` sum accumulator of `calc_statistics`, which is modelled with an explicit
`% 2 ^ 128`.  The `f64` averages and threshold percentages are modelled as exact
rationals (`ℚ`).  XDR (wire-format) encoding is performed by the external
`soroban_client` crate; an already-decoded value carries its encoding result as
data (`Option (List Nat)`, `none` meaning the encoder failed under the fixed
limits), which is the interface the crate under verification actually consumes.
Rust `HashMap`s are modelled as association lists keyed by `String`.
-/

/-! ## XDR value model (inputs consumed from `soroban_client::xdr`) -/

/-- Low/high words of an `Int128Parts` (`hi : i64`, `lo : u64`). -/
structure Int128Parts where
  hi : Int
  lo : Nat
deriving DecidableEq, Repr

/-- Low/high words of a `UInt128Parts` (`hi : u64`, `lo : u64`). -/
structure UInt128Parts where
  hi : Nat
  lo : Nat
deriving DecidableEq, Repr

/-- The `ScVal` variants the crate inspects; every variant it ignores is
collapsed into `Other` (both `scval_as_string` and `scval_as_u64` return
`None` for all of them). -/
inductive ScVal where
  | U32 (n : Nat)
  | I32 (n : Int)
  | U64 (n : Nat)
  | I64 (n : Int)
  | U128 (p : UInt128Parts)
  | I128 (p : Int128Parts)
  | Symbol (s : String)
  | Str (s : String)
  | Other
deriving DecidableEq, Repr

/-! ## `scval_tools.rs` -/

/-- `scval_tools::scval_as_string`: `Symbol` and `String` variants render to
their text, everything else is `None`. -/
def scval_as_string : ScVal → Option String
  | .Symbol s => some s
  | .Str s => some s
  | _ => none

/-- `scval_tools::scval_as_u64`: 32/64-bit values convert (signed ones only
when non-negative, mirroring `try_into().ok()`), 128-bit values yield their
low word exactly when the high word is zero, all other variants are `None`. -/
def scval_as_u64 : ScVal → Option Nat
  | .U32 n => some n
  | .I32 n => if 0 ≤ n then some n.toNat else none
  | .U64 n => some n
  | .I64 n => if 0 ≤ n then some n.toNat else none
  | .I128 p => if p.hi = 0 then some p.lo else none
  | .U128 p => if p.hi = 0 then some p.lo else none
  | _ => none

/-! ## Ledger metadata model -/

/-- The payload of a ledger entry; `toXdr` is the result of the external
`WriteXdr::to_xdr` under the crate's fixed `LIMITS` (depth 200, 2 MiB),
`none` meaning the encoder returned an error. -/
structure LedgerEntryData where
  toXdr : Option (List Nat)
deriving DecidableEq, Repr

/-- A `LedgerEntry` as stored inside a change record (only its `data` payload
is consulted by the crate). -/
structure LedgerEntry where
  data : LedgerEntryData
deriving DecidableEq, Repr

/-- `LedgerEntryChange`: the crate only distinguishes `Created` and `Updated`
(post-change value present) from every other kind. -/
inductive LedgerEntryChange where
  | Created (e : LedgerEntry)
  | Updated (e : LedgerEntry)
  | State (e : LedgerEntry)
  | Removed
  | Restored (e : LedgerEntry)
deriving DecidableEq, Repr

/-- One entry of `TransactionMetaV4.operations` (an `OperationMetaV2`); only
its list of ledger-entry changes is consulted. -/
structure OperationMetaV2 where
  changes : List LedgerEntryChange
deriving DecidableEq, Repr

/-- `ContractEventV0`: topics plus a single data payload. -/
structure ContractEventV0 where
  topics : List ScVal
  data : ScVal
deriving DecidableEq, Repr

/-- `ContractEventBody` (only variant `V0`). -/
inductive ContractEventBody where
  | V0 (v : ContractEventV0)
deriving DecidableEq, Repr

/-- A `ContractEvent` (only the body is consulted). -/
structure ContractEvent where
  body : ContractEventBody
deriving DecidableEq, Repr

/-- A `DiagnosticEvent` from `TransactionMetaV4.diagnostic_events`. -/
structure DiagnosticEvent where
  in_successful_contract_call : Bool
  event : ContractEvent
deriving DecidableEq, Repr

/-- The version-4 transaction metadata: the crate consults its operation
change lists and its diagnostic events. -/
structure TransactionMetaV4 where
  operations : List OperationMetaV2
  diagnostic_events : List DiagnosticEvent
deriving DecidableEq, Repr

/-- `TransactionMeta` tagged by version; only `V4` carries data the crate can
use, the other versions are opaque here because the code never opens them. -/
inductive TransactionMeta where
  | V0
  | V1
  | V2
  | V3
  | V4 (m : TransactionMetaV4)
deriving DecidableEq, Repr

/-- The `V4` projection used to phrase the `UnsupportedMeta` boundary. -/
def TransactionMeta.toV4? : TransactionMeta → Option TransactionMetaV4
  | .V4 m => some m
  | _ => none

/-! ## Simulation / receipt model (`soroban_rpc` responses) -/

/-- `LedgerFootprint`: read-only and read-write ledger keys (keys themselves
are opaque; only cardinalities are consumed). -/
structure LedgerFootprint where
  read_only : List Nat
  read_write : List Nat
deriving DecidableEq, Repr

/-- `SorobanResources` as recovered from the simulation response. -/
structure SorobanResources where
  footprint : LedgerFootprint
  disk_read_bytes : Nat
  write_bytes : Nat
deriving DecidableEq, Repr

/-- `SorobanTransactionData` (the part of it the crate reads). -/
structure SorobanTransactionData where
  resources : SorobanResources
deriving DecidableEq, Repr

/-- `SimulateTransactionResponse`: `transactionData` is the result of
`to_transaction_data()` (`none` when the simulation carried none). -/
structure SimulateTransactionResponse where
  transactionData : Option SorobanTransactionData
deriving DecidableEq, Repr

/-- Transaction status of a receipt. -/
inductive TransactionStatus where
  | Success
  | Failed
  | NotFound
deriving DecidableEq, Repr

/-- `GetTransactionResponse`: `resultMeta` is the metadata recovered by
`to_result_meta()` (`none` when the receipt has no meta); `envelopeXdr` is
the result of `to_envelope().to_xdr(LIMITS)` on the receipt's envelope
(`none` when that external re-encoding fails). -/
structure GetTransactionResponse where
  status : TransactionStatus
  resultMeta : Option TransactionMeta
  envelopeXdr : Option (List Nat)
deriving DecidableEq, Repr

/-! ## `error.rs` -/

/-- The crate's error enum (`SDKClientError` is never produced by the code
modelled here and is omitted; `SDKXdrError` stands for any wrapped
`xdr::Error`). -/
inductive Error where
  | SDKXdrError
  | MissingMeta
  | UnsupportedMeta
  | NoTransactionData
deriving DecidableEq, Repr

/-! ## `statistics.rs` -/

/-- `ResourceMetric`: one sample of resource usage, every field optional. -/
structure ResourceMetric where
  cpu_insns : Option Nat := none
  mem_bytes : Option Nat := none
  entry_bytes : Option Nat := none
  entry_reads : Option Nat := none
  entry_writes : Option Nat := none
  read_bytes : Option Nat := none
  write_bytes : Option Nat := none
  min_txn_bytes : Option Nat := none
deriving DecidableEq, Repr

/-- XDR encoding limits (`const LIMITS`): depth 200, 2 MiB.  The encoder
itself is external, so these limits are carried as documentation; encode
results under them appear as `toXdr` / `envelopeXdr` data. -/
structure Limits where
  depth : Nat
  len : Nat
deriving DecidableEq, Repr

/-- The crate's fixed `LIMITS` constant. -/
def LIMITS : Limits := { depth := 200, len := 2 * 1024 * 1024 }

/-- The byte-length contribution of one change record inside
`max_entry_value_len`: `Created`/`Updated` records contribute
`data.to_xdr(...).map(len).unwrap_or(0)`, every other kind contributes 0. -/
def changeLen : LedgerEntryChange → Nat
  | .Created e => ((e.data.toXdr).map List.length).getD 0
  | .Updated e => ((e.data.toXdr).map List.length).getD 0
  | _ => 0

/-- `statistics::max_entry_value_len`: running maximum of `changeLen` over
every change of every operation, starting from 0. -/
def max_entry_value_len (meta : TransactionMetaV4) : Nat :=
  meta.operations.foldl
    (fun max_len op =>
      op.changes.foldl
        (fun max_len change =>
          let len := changeLen change
          if len > max_len then len else max_len)
        max_len)
    0

/-- The four recognised core-metric key names (`CORE_KEYS`). -/
def CORE_KEYS : List String :=
  ["cpu_insn", "mem_byte", "ledger_read_byte", "ledger_write_byte"]

/-- The `HashMap<&'static str, u64>` of `get_core_metrics`, restricted to its
only possible keys (the four `CORE_KEYS`). -/
structure CoreMap where
  cpu_insn : Option Nat := none
  mem_byte : Option Nat := none
  ledger_read_byte : Option Nat := none
  ledger_write_byte : Option Nat := none
deriving DecidableEq, Repr

/-- `map.insert(key, v)` on the restricted map. -/
def CoreMap.insert (m : CoreMap) (k : String) (v : Nat) : CoreMap :=
  if k = "cpu_insn" then { m with cpu_insn := some v }
  else if k = "mem_byte" then { m with mem_byte := some v }
  else if k = "ledger_read_byte" then { m with ledger_read_byte := some v }
  else if k = "ledger_write_byte" then { m with ledger_write_byte := some v }
  else m

/-- The result struct of `get_core_metrics` (`struct Metrics`). -/
structure Metrics where
  cpu_insn : Option Nat := none
  mem_byte : Option Nat := none
deriving DecidableEq, Repr

/-- One step of the topic loop of `get_core_metrics`: accumulator is
`(is_core_metrics, matched_key)`; the tag topic sets the flag and is skipped,
otherwise the first topic found in `CORE_KEYS` is remembered. -/
def topicFold (acc : Bool × Option String) (topic : String) : Bool × Option String :=
  if topic = "core_metrics" then (true, acc.2)
  else if acc.2 = none ∧ topic ∈ CORE_KEYS then (acc.1, some topic)
  else acc

/-- The topic scan of `get_core_metrics` over one event's topics (after
`filter_map(scval_as_string)`). -/
def scanTopics (topics : List ScVal) : Bool × Option String :=
  (topics.filterMap scval_as_string).foldl topicFold (false, none)

/-- The body of the event loop of `get_core_metrics`: skip events without the
`core_metrics` tag, without a matched key, or whose payload does not decode;
otherwise insert (overwriting any earlier value for the same key). -/
def coreStep (map : CoreMap) (te : DiagnosticEvent) : CoreMap :=
  match te.event.body with
  | .V0 v0 =>
    let s := scanTopics v0.topics
    if s.1 then
      match s.2 with
      | none => map
      | some key =>
        match scval_as_u64 v0.data with
        | none => map
        | some v => map.insert key v
    else map

/-- `statistics::get_core_metrics`. -/
def get_core_metrics (meta : TransactionMetaV4) : Metrics :=
  let map := meta.diagnostic_events.foldl coreStep {}
  { cpu_insn := map.cpu_insn, mem_byte := map.mem_byte }

/-- `statistics::handle_meta_v4`. -/
def handle_meta_v4 (sim_tx : SimulateTransactionResponse)
    (tx_result : GetTransactionResponse) (meta : TransactionMetaV4) :
    Except Error ResourceMetric :=
  match sim_tx.transactionData with
  | none => .error .NoTransactionData
  | some sim_transaction =>
    let resource := sim_transaction.resources
    let footprint := resource.footprint
    let entry_reads := footprint.read_only.length
    let entry_writes := footprint.read_write.length
    let read_bytes := resource.disk_read_bytes
    let write_bytes := resource.write_bytes
    match tx_result.envelopeXdr with
    | none => .error .SDKXdrError
    | some bytes =>
      let min_txn_bytes := bytes.length
      let entry_bytes := max_entry_value_len meta
      let metrics := get_core_metrics meta
      .ok { cpu_insns := metrics.cpu_insn
            mem_bytes := metrics.mem_byte
            entry_bytes := some entry_bytes
            entry_reads := some entry_reads
            entry_writes := some entry_writes
            read_bytes := some read_bytes
            write_bytes := some write_bytes
            min_txn_bytes := some min_txn_bytes }

/-- `statistics::handle_transaction`. -/
def handle_transaction (sim_tx : SimulateTransactionResponse)
    (tx_result : GetTransactionResponse) : Except Error ResourceMetric :=
  match tx_result.resultMeta with
  | none => .error .MissingMeta
  | some meta =>
    match meta with
    | .V4 m => handle_meta_v4 sim_tx tx_result m
    | _ => .error .UnsupportedMeta

/-! ## Association-list maps (model of Rust `HashMap`) -/

/-- Lookup in an association list (model of `HashMap::get`). -/
def alGet? {β : Type} : List (String × β) → String → Option β
  | [], _ => none
  | (k, v) :: rest, key => if k = key then some v else alGet? rest key

/-- `entry(key).or_default()` followed by an in-place modification: update the
value at `key` through `f`, inserting `f dflt` when the key is absent. -/
def alUpdate {β : Type} (l : List (String × β)) (key : String) (dflt : β)
    (f : β → β) : List (String × β) :=
  match l with
  | [] => [(key, f dflt)]
  | (k, v) :: rest =>
    if k = key then (k, f v) :: rest else (k, v) :: alUpdate rest key dflt f

/-! ## Transaction model and `store_transaction` -/

/-- A contract address: either a contract id (modelled as its canonical
strkey text, the form `stellar_strkey::Contract(..).to_string()` produces) or
some other kind of address. -/
inductive ScAddress where
  | Contract (strkey : String)
  | OtherAddress
deriving DecidableEq, Repr

/-- `InvokeContractArgs` (contract address, function name; call arguments are
never consulted). -/
structure InvokeContractArgs where
  contract_address : ScAddress
  function_name : String
deriving DecidableEq, Repr

/-- `HostFunction`: a direct contract invocation or anything else. -/
inductive HostFunction where
  | InvokeContract (args : InvokeContractArgs)
  | OtherHostFunction
deriving DecidableEq, Repr

/-- `InvokeHostFunctionOp` (only its `host_function` is consulted). -/
structure InvokeHostFunctionOp where
  host_function : HostFunction
deriving DecidableEq, Repr

/-- `OperationBody`: host-function invocation or any other operation kind. -/
inductive OperationBody where
  | InvokeHostFunction (op : InvokeHostFunctionOp)
  | OtherOperation
deriving DecidableEq, Repr

/-- An operation of a transaction. -/
structure Operation where
  body : OperationBody
deriving DecidableEq, Repr

/-- The transaction that was sent (`soroban_client::transaction::Transaction`):
only `operations` is consulted, and it is optional there. -/
structure Transaction where
  operations : Option (List Operation)
deriving DecidableEq, Repr

/-- `FunctionStore = HashMap<String, Vec<ResourceMetric>>`. -/
abbrev FunctionStore := List (String × List ResourceMetric)

/-- `ContractStore = HashMap<String, FunctionStore>`. -/
abbrev ContractStore := List (String × FunctionStore)

/-- `store_stats.entry(c).or_default().entry(f).or_default().push(stats)`. -/
def appendSample (st : ContractStore) (c f : String) (stats : ResourceMetric) :
    ContractStore :=
  alUpdate st c [] (fun fs => alUpdate fs f [] (fun ms => ms ++ [stats]))

/-- Read `store[c][f]`, defaulting to the empty sample list. -/
def storeGet (st : ContractStore) (c f : String) : List ResourceMetric :=
  (alGet? ((alGet? st c).getD []) f).getD []

/-- The `(contract strkey, function name)` pair of one operation when it is a
direct contract invocation, `none` otherwise (the skip cases of the loop in
`store_transaction`). -/
def opInvocation (operation : Operation) : Option (String × String) :=
  match operation.body with
  | .InvokeHostFunction invoke_op =>
    match invoke_op.host_function with
    | .InvokeContract args =>
      match args.contract_address with
      | .Contract strkey => some (strkey, args.function_name)
      | _ => none
    | _ => none
  | _ => none

/-- `statistics::store_transaction`. -/
def store_transaction (store_stats : ContractStore) (transaction : Transaction)
    (stats : ResourceMetric) : ContractStore :=
  match transaction.operations with
  | none => store_stats
  | some operations =>
    operations.foldl
      (fun st operation =>
        match operation.body with
        | .InvokeHostFunction invoke_op =>
          match invoke_op.host_function with
          | .InvokeContract args =>
            match args.contract_address with
            | .Contract strkey => appendSample st strkey args.function_name stats
            | _ => st
          | _ => st
        | _ => st)
      store_stats

/-- The qualifying invocations of a transaction, in operation order. -/
def txInvocations (transaction : Transaction) : List (String × String) :=
  match transaction.operations with
  | none => []
  | some operations => operations.filterMap opInvocation

/-! ## `show.rs` -/

/-- The danger/error cursor ratios (`LimitsCursors`), as exact rationals. -/
structure LimitsCursors where
  danger : ℚ
  error : ℚ
deriving DecidableEq, Repr

/-- Per-metric statistics of one function (`MetricStatistics`); `avg` is the
`f64` average, modelled as an exact rational. -/
structure MetricStatistics where
  avg : ℚ
  max : Nat
  min : Nat
  sum : Nat
deriving DecidableEq, Repr

/-- Per-function statistics (`FuncStatistics`); the metric map is an
association list in `METRIC_KEYS` order. -/
structure FuncStatistics where
  times : Nat
  metrics : List (String × MetricStatistics)
deriving DecidableEq, Repr

/-- `ResultStatistics = HashMap<String, HashMap<String, FuncStatistics>>`. -/
abbrev ResultStatistics := List (String × List (String × FuncStatistics))

/-- One row of the table data: `(key, limit, avg, max, min, sum)`. -/
structure RowData where
  key : String
  limit : Nat
  avg : ℚ
  max : Nat
  min : Nat
  sum : Nat
deriving DecidableEq, Repr

/-- `FuncTableData`. -/
structure FuncTableData where
  func : String
  times : Nat
  rows : List RowData
deriving DecidableEq, Repr

/-- The eight metric keys (`METRIC_KEYS`, and `METRIC_KEYS_FOR_PRINT`, which
the source sets to the same array). -/
def METRIC_KEYS : List String :=
  ["cpu_insns", "mem_bytes", "entry_bytes", "entry_reads", "entry_writes",
   "read_bytes", "write_bytes", "min_txn_bytes"]

/-- `show::stellar_limits_config`: the fixed limit table. -/
def stellar_limits_config : List (String × Nat) :=
  [("cpu_insns", 50000000), ("mem_bytes", 10000000), ("entry_bytes", 1000000),
   ("entry_reads", 10000), ("entry_writes", 10000), ("read_bytes", 2000000),
   ("write_bytes", 2000000), ("min_txn_bytes", 100000)]

/-- `show::get_metric_u64`: project the field named by `key` (as `u64`). -/
def get_metric_u64 (m : ResourceMetric) (key : String) : Option Nat :=
  if key = "cpu_insns" then m.cpu_insns
  else if key = "mem_bytes" then m.mem_bytes
  else if key = "entry_bytes" then m.entry_bytes
  else if key = "entry_reads" then m.entry_reads
  else if key = "entry_writes" then m.entry_writes
  else if key = "read_bytes" then m.read_bytes
  else if key = "write_bytes" then m.write_bytes
  else if key = "min_txn_bytes" then m.min_txn_bytes
  else none

/-- The per-key body of the metric loop in `calc_statistics`: gate on the
first sample (`data[0]`), then one pass over all samples accumulating
`sum` (u128, explicit wrap), `max` and `min` (both seeded with the first
sample's value), missing values counting as 0; `avg = sum / times` in `f64`,
modelled as exact rational division. -/
def metricStat (data : List ResourceMetric) (key : String) :
    Option MetricStatistics :=
  match data.head? with
  | none => none
  | some first =>
    match get_metric_u64 first key with
    | none => none
    | some first_val =>
      let acc := data.foldl
        (fun (acc : Nat × Nat × Nat) metric =>
          let value := (get_metric_u64 metric key).getD 0
          ((acc.1 + value) % 2 ^ 128,
           if value > acc.2.1 then value else acc.2.1,
           if value < acc.2.2 then value else acc.2.2))
        (0, first_val, first_val)
      some { avg := (acc.1 : ℚ) / (data.length : ℚ),
             max := acc.2.1, min := acc.2.2, sum := acc.1 }

/-- The `FuncStatistics` built for one function by `calc_statistics`
(metric keys in `METRIC_KEYS` order, gated keys skipped). -/
def calcFuncStats (data : List ResourceMetric) : FuncStatistics :=
  { times := data.length
    metrics := METRIC_KEYS.filterMap
      (fun key => (metricStat data key).map (fun st => (key, st))) }

/-- `show::calc_statistics`: every contract gets an entry; functions with an
empty sample list are skipped. -/
def calc_statistics (store : ContractStore) : ResultStatistics :=
  store.map (fun ce =>
    (ce.1, ce.2.filterMap (fun fe =>
      if fe.2.length = 0 then none else some (fe.1, calcFuncStats fe.2))))

/-- `show::load_table_data`: one `FuncTableData` per function of every
contract; a row per metric key that has a statistic, a configured limit, and
a nonzero limit. -/
def load_table_data (statistics : ResultStatistics)
    (limits : List (String × Nat)) : List FuncTableData :=
  (statistics.map (fun ce =>
    ce.2.map (fun fe =>
      { func := fe.1
        times := fe.2.times
        rows := METRIC_KEYS.filterMap (fun key =>
          match alGet? fe.2.metrics key with
          | none => none
          | some stat =>
            match alGet? limits key with
            | none => none
            | some limit =>
              if limit = 0 then none
              else some { key := key, limit := limit, avg := stat.avg,
                          max := stat.max, min := stat.min,
                          sum := stat.sum }) }))).flatten

/-- Severity of one rendered cell (plain, yellow-bold, red-bold). -/
inductive Severity where
  | Normal
  | Danger
  | Error
deriving DecidableEq, Repr

/-- The classification decision of `show::format_cell_f64` (`f64` arithmetic
modelled as exact rationals): `percent = value / limit * 100`, `Error` when
strictly above the error cursor, else `Danger` when strictly above the danger
cursor, else `Normal`. -/
def format_cell_f64_severity (value : ℚ) (limit : Nat)
    (cursors : LimitsCursors) : Severity :=
  let percent := value / (limit : ℚ) * 100
  if percent > cursors.error * 100 then .Error
  else if percent > cursors.danger * 100 then .Danger
  else .Normal

/-- The classification decision of `show::format_cell_u64` (same rule applied
to an integer cell cast to `f64`). -/
def format_cell_u64_severity (value : Nat) (limit : Nat)
    (cursors : LimitsCursors) : Severity :=
  let percent := (value : ℚ) / (limit : ℚ) * 100
  if percent > cursors.error * 100 then .Error
  else if percent > cursors.danger * 100 then .Danger
  else .Normal

/-! ## `rpc_server.rs` report loop -/

/-- The per-hash record kept by the server (`HashMapValue`). -/
structure HashMapValue where
  transaction : Transaction
  sim_tx_res : SimulateTransactionResponse
deriving DecidableEq, Repr

/-- The processing loop of `StellarRpcServer::print_table`, up to rendering:
for each awaited `(hash, result)` pair, a failed fetch or a non-`Success`
status or an unknown hash is skipped with `continue`; then
`handle_transaction(..)?` either aborts the whole loop with its error (the
`?` operator returns from `print_table`) or the sample is recorded.  Returns
the accumulated store on normal completion. -/
def processResults (hash : List (String × HashMapValue))
    (results : List (String × Option GetTransactionResponse))
    (store_stats : ContractStore) : Except Error ContractStore :=
  match results with
  | [] => .ok store_stats
  | (h, tx_fetch) :: rest =>
    match tx_fetch with
    | none => processResults hash rest store_stats
    | some tx_result =>
      if tx_result.status ≠ TransactionStatus.Success then
        processResults hash rest store_stats
      else
        match alGet? hash h with
        | none => processResults hash rest store_stats
        | some map_value =>
          match handle_transaction map_value.sim_tx_res tx_result with
          | .error e => .error e
          | .ok stats =>
            processResults hash rest
              (store_transaction store_stats map_value.transaction stats)

/-! ## Spec-side definitions (restatements of claim language, for
refinement comparison with the source-derived definitions) -/

/-- The topics of an event, rendered to strings exactly as the code's
`filter_map(scval_as_string)` does. -/
def eventStrings (te : DiagnosticEvent) : List String :=
  match te.event.body with
  | .V0 v0 => v0.topics.filterMap scval_as_string

/-- The payload of an event. -/
def eventData (te : DiagnosticEvent) : ScVal :=
  match te.event.body with
  | .V0 v0 => v0.data

/-- Spec-side reading of one event's contribution to the core-metric field
named `key`: the event contributes its decoded payload exactly when some
topic is the literal `core_metrics` tag and the first topic matching one of
the four known key names is `key`. -/
def coreEventValue (key : String) (te : DiagnosticEvent) : Option Nat :=
  if "core_metrics" ∈ eventStrings te ∧
      (eventStrings te).find? (fun t => decide (t ∈ CORE_KEYS)) = some key then
    scval_as_u64 (eventData te)
  else none

/-- Spec-side value of a core-metric field: the last contribution found while
scanning the diagnostic events (last writer wins). -/
def lastCoreValue (meta : TransactionMetaV4) (key : String) : Option Nat :=
  (meta.diagnostic_events.filterMap (coreEventValue key)).getLast?

/-- All change records of all operations of a metadata value, in scan order. -/
def allChanges (meta : TransactionMetaV4) : List LedgerEntryChange :=
  (meta.operations.map OperationMetaV2.changes).flatten

/-! ## Concrete inputs used to instantiate the theorems below -/

/-- A sample carrying only a `cpu_insns` value. -/
def cpuSample (n : Nat) : ResourceMetric := { cpu_insns := some n }

/-- A sample with every field absent. -/
def emptySample : ResourceMetric := {}

/-- A sample used as the recorded metric in store examples. -/
def sampleMetric : ResourceMetric := cpuSample 7

/-- A metadata value with no operations and no diagnostic events. -/
def emptyMeta : TransactionMetaV4 := { operations := [], diagnostic_events := [] }

/-- A diagnostic event tagged `core_metrics` carrying `cpu_insn = 42`. -/
def cpuEvent : DiagnosticEvent :=
  { in_successful_contract_call := true
    event := { body := .V0 { topics := [.Symbol "core_metrics", .Symbol "cpu_insn"]
                             data := .U64 42 } } }

/-- A metadata value whose only diagnostic event reports `cpu_insn = 42`. -/
def cpuMeta : TransactionMetaV4 := { operations := [], diagnostic_events := [cpuEvent] }

/-- A metadata value whose only change record fails to encode. -/
def failMeta : TransactionMetaV4 :=
  { operations := [{ changes := [.Created { data := { toXdr := none } }] }]
    diagnostic_events := [] }

/-- A simulation response with an empty footprint and zero byte estimates. -/
def simOk : SimulateTransactionResponse :=
  { transactionData := some { resources :=
      { footprint := { read_only := [], read_write := [] }
        disk_read_bytes := 0, write_bytes := 0 } } }

/-- A successful receipt with empty V4 metadata and an empty re-encoded
envelope. -/
def goodTxResult : GetTransactionResponse :=
  { status := .Success, resultMeta := some (.V4 emptyMeta), envelopeXdr := some [] }

/-- A successful receipt whose metadata is missing (extraction fails with
`MissingMeta`). -/
def badTxResult : GetTransactionResponse :=
  { status := .Success, resultMeta := none, envelopeXdr := some [] }

/-- An operation invoking function `f` on contract `c`. -/
def invokeOp (c f : String) : Operation :=
  { body := .InvokeHostFunction
      { host_function := .InvokeContract
          { contract_address := .Contract c, function_name := f } } }

/-- The transaction sent for the recorded calls of the report-loop example. -/
def sentTx : Transaction := { operations := some [invokeOp "C" "f"] }

/-- A transaction carrying no operations at all. -/
def txNoOps : Transaction := { operations := none }

/-- A transaction batching two invocations of the same contract function. -/
def txBatch2 : Transaction := { operations := some [invokeOp "C" "swap", invokeOp "C" "swap"] }

/-- The server's hash map with two pending calls. -/
def hashConc : List (String × HashMapValue) :=
  [("h1", { transaction := sentTx, sim_tx_res := simOk }),
   ("h2", { transaction := sentTx, sim_tx_res := simOk })]

/-- The metric extracted from `simOk`/`goodTxResult` (all-zero observables). -/
def zeroMetric : ResourceMetric :=
  { cpu_insns := none, mem_bytes := none, entry_bytes := some 0,
    entry_reads := some 0, entry_writes := some 0, read_bytes := some 0,
    write_bytes := some 0, min_txn_bytes := some 0 }

/-- Statistics input used for the zero-limit report example. -/
def statsZeroLimit : ResultStatistics :=
  [("C", [("f", { times := 1
                  metrics := [("cpu_insns", { avg := 1, max := 1, min := 1, sum := 1 }),
                              ("mem_bytes", { avg := 1, max := 1, min := 1, sum := 1 })] })])]

/-- Limit table whose `cpu_insns` ceiling is zero. -/
def limitsZeroCpu : List (String × Nat) := [("cpu_insns", 0), ("mem_bytes", 10)]

/-- The metric extracted from `simOk`/`goodTxResult` with metadata
`cpuMeta` (only `cpu_insns` reported by an event). -/
def cpu42Metric : ResourceMetric :=
  { cpu_insns := some 42, mem_bytes := none, entry_bytes := some 0,
    entry_reads := some 0, entry_writes := some 0, read_bytes := some 0,
    write_bytes := some 0, min_txn_bytes := some 0 }

/-! ## Generic fold and association-list lemmas -/

/-- The running-maximum update written with `if` is `Nat.max`. -/
lemma if_gt_eq_max (a v : Nat) : (if v > a then v else a) = Nat.max a v := by
  by_cases h : v > a
  · rw [if_pos h]; exact (Nat.max_eq_right (Nat.le_of_lt h)).symm
  · rw [if_neg h]; exact (Nat.max_eq_left (Nat.not_lt.mp h)).symm

/-- The running-minimum update written with `if` is `Nat.min`. -/
lemma if_lt_eq_min (a v : Nat) : (if v < a then v else a) = Nat.min a v := by
  by_cases h : v < a
  · rw [if_pos h]; exact (Nat.min_eq_right (Nat.le_of_lt h)).symm
  · rw [if_neg h]; exact (Nat.min_eq_left (Nat.not_lt.mp h)).symm

lemma le_foldl_max (l : List Nat) (a : Nat) : a ≤ l.foldl Nat.max a := by
  induction l generalizing a with
  | nil => exact Nat.le_refl a
  | cons x t ih => exact Nat.le_trans (Nat.le_max_left a x) (ih (Nat.max a x))

lemma foldl_max_le_of_mem {l : List Nat} {x : Nat} (hx : x ∈ l) (a : Nat) :
    x ≤ l.foldl Nat.max a := by
  induction l generalizing a with
  | nil => cases hx
  | cons y t ih =>
    rcases List.mem_cons.mp hx with rfl | h
    · exact Nat.le_trans (Nat.le_max_right a x) (le_foldl_max t (Nat.max a x))
    · exact ih h (Nat.max a y)

lemma foldl_max_mem (l : List Nat) (a : Nat) :
    l.foldl Nat.max a = a ∨ l.foldl Nat.max a ∈ l := by
  induction l generalizing a with
  | nil => left; rfl
  | cons x t ih =>
    rcases ih (Nat.max a x) with h | h
    · rcases Nat.le_total a x with hax | hxa
      · right
        rw [List.foldl_cons, h]
        have hx : Nat.max a x = x := Nat.max_eq_right hax
        rw [hx]
        exact List.mem_cons_self x t
      · left
        rw [List.foldl_cons, h]
        exact Nat.max_eq_left hxa
    · right; exact List.mem_cons_of_mem x h

lemma foldl_min_le (l : List Nat) (a : Nat) : l.foldl Nat.min a ≤ a := by
  induction l generalizing a with
  | nil => exact Nat.le_refl a
  | cons x t ih => exact Nat.le_trans (ih (Nat.min a x)) (Nat.min_le_left a x)

lemma foldl_min_le_of_mem {l : List Nat} {x : Nat} (hx : x ∈ l) (a : Nat) :
    l.foldl Nat.min a ≤ x := by
  induction l generalizing a with
  | nil => cases hx
  | cons y t ih =>
    rcases List.mem_cons.mp hx with rfl | h
    · exact Nat.le_trans (foldl_min_le t (Nat.min a x)) (Nat.min_le_right a x)
    · exact ih h (Nat.min a y)

lemma foldl_min_mem (l : List Nat) (a : Nat) :
    l.foldl Nat.min a = a ∨ l.foldl Nat.min a ∈ l := by
  induction l generalizing a with
  | nil => left; rfl
  | cons x t ih =>
    rcases ih (Nat.min a x) with h | h
    · rcases Nat.le_total a x with hax | hxa
      · left
        rw [List.foldl_cons, h]
        exact Nat.min_eq_left hax
      · right
        rw [List.foldl_cons, h]
        have hx : Nat.min a x = x := Nat.min_eq_right hxa
        rw [hx]
        exact List.mem_cons_self x t
    · right; exact List.mem_cons_of_mem x h

/-- Accumulating with a wrap at every step equals wrapping the plain sum. -/
lemma foldl_add_mod (l : List Nat) (s : Nat) (hs : s < 2 ^ 128) :
    l.foldl (fun a v => (a + v) % 2 ^ 128) s = (s + l.sum) % 2 ^ 128 := by
  induction l generalizing s with
  | nil => rw [List.foldl_nil, List.sum_nil, Nat.add_zero, Nat.mod_eq_of_lt hs]
  | cons x t ih =>
    rw [List.foldl_cons, ih ((s + x) % 2 ^ 128) (Nat.mod_lt _ (by positivity)),
      List.sum_cons, Nat.mod_add_mod, Nat.add_assoc]

lemma alGet?_alUpdate_self {β : Type} (l : List (String × β)) (k : String)
    (d : β) (f : β → β) :
    alGet? (alUpdate l k d f) k = some (f ((alGet? l k).getD d)) := by
  induction l with
  | nil => simp [alUpdate, alGet?]
  | cons p t ih =>
    by_cases h : p.1 = k
    · simp [alUpdate, alGet?, h]
    · simp [alUpdate, alGet?, h, ih]

lemma alGet?_alUpdate_ne {β : Type} (l : List (String × β)) (k k2 : String)
    (d : β) (f : β → β) (h : k2 ≠ k) :
    alGet? (alUpdate l k d f) k2 = alGet? l k2 := by
  induction l with
  | nil => simp [alUpdate, alGet?, Ne.symm h]
  | cons p t ih =>
    obtain ⟨q, v⟩ := p
    by_cases hp : q = k
    · subst hp
      simp [alUpdate, alGet?, Ne.symm h]
    · simp [alUpdate, alGet?, hp, ih]

/-- Lookup in a list built by tagging each key of `l` with an optional
payload: the result is the payload of `key` when `key` occurs in a
duplicate-free `l`, and `none` otherwise. -/
lemma alGet?_filterMap_tag {β : Type} (g : String → Option β) (l : List String)
    (hnd : l.Nodup) (key : String) :
    alGet? (l.filterMap (fun k => (g k).map (fun v => (k, v)))) key =
      if key ∈ l then g key else none := by
  induction l with
  | nil => simp [alGet?]
  | cons k t ih =>
    obtain ⟨hk, hnd'⟩ := List.nodup_cons.mp hnd
    cases hgk : g k with
    | none =>
      simp only [List.filterMap_cons, hgk, Option.map_none']
      rw [ih hnd']
      by_cases hkey : key = k
      · subst hkey
        rw [if_neg hk, if_pos (List.mem_cons_self key t), hgk]
      · by_cases hmem : key ∈ t
        · rw [if_pos hmem, if_pos (List.mem_cons_of_mem k hmem)]
        · rw [if_neg hmem, if_neg (by simp [List.mem_cons, hkey, hmem])]
    | some v =>
      simp only [List.filterMap_cons, hgk, Option.map_some']
      by_cases hkey : key = k
      · subst hkey
        simp [alGet?, List.mem_cons, hgk]
      · have hskip : alGet?
            ((k, v) :: t.filterMap fun k => (g k).map fun v => (k, v)) key =
            alGet? (t.filterMap fun k => (g k).map fun v => (k, v)) key := by
          simp [alGet?, Ne.symm hkey]
        rw [hskip, ih hnd']
        by_cases hmem : key ∈ t
        · rw [if_pos hmem, if_pos (List.mem_cons_of_mem k hmem)]
        · rw [if_neg hmem, if_neg (by simp [List.mem_cons, hkey, hmem])]

/-! ## Aggregator lemmas -/

/-- The one-pass `(sum, max, min)` accumulation of `calc_statistics` splits
into three independent folds over the per-sample values. -/
lemma metric_fold_triple (data : List ResourceMetric) (key : String) (s m n : Nat) :
    data.foldl
      (fun (acc : Nat × Nat × Nat) metric =>
        ((acc.1 + (get_metric_u64 metric key).getD 0) % 2 ^ 128,
         if (get_metric_u64 metric key).getD 0 > acc.2.1 then
           (get_metric_u64 metric key).getD 0 else acc.2.1,
         if (get_metric_u64 metric key).getD 0 < acc.2.2 then
           (get_metric_u64 metric key).getD 0 else acc.2.2))
      (s, m, n) =
    ((data.map (fun metric => (get_metric_u64 metric key).getD 0)).foldl
        (fun a v => (a + v) % 2 ^ 128) s,
     (data.map (fun metric => (get_metric_u64 metric key).getD 0)).foldl Nat.max m,
     (data.map (fun metric => (get_metric_u64 metric key).getD 0)).foldl Nat.min n) := by
  induction data generalizing s m n with
  | nil => rfl
  | cons d t ih =>
    simp only [List.foldl_cons, List.map_cons]
    rw [ih, if_gt_eq_max, if_lt_eq_min]

/-- Keys outside the fixed key list never project a value. -/
lemma get_metric_u64_not_mem (m : ResourceMetric) (key : String)
    (h : key ∉ METRIC_KEYS) : get_metric_u64 m key = none := by
  simp only [METRIC_KEYS, List.mem_cons, List.not_mem_nil, or_false, not_or] at h
  obtain ⟨h1, h2, h3, h4, h5, h6, h7, h8⟩ := h
  simp [get_metric_u64, h1, h2, h3, h4, h5, h6, h7, h8]

/-- The presence gate: a per-key statistic exists iff the first sample has
the metric. -/
lemma metricStat_isSome (d : ResourceMetric) (rest : List ResourceMetric)
    (key : String) :
    (metricStat (d :: rest) key).isSome = (get_metric_u64 d key).isSome := by
  cases h : get_metric_u64 d key with
  | none => simp [metricStat, h]
  | some v => simp [metricStat, h]

/-- Values of the per-key statistic: wrapped sum, exact-rational average,
attained maximum and minimum over the zero-filled per-sample values. -/
lemma metricStat_spec (d : ResourceMetric) (rest : List ResourceMetric)
    (key : String) (st : MetricStatistics)
    (h : metricStat (d :: rest) key = some st) :
    st.sum = ((d :: rest).map (fun m => (get_metric_u64 m key).getD 0)).sum % 2 ^ 128 ∧
    st.avg = (st.sum : ℚ) / ((d :: rest).length : ℚ) ∧
    st.max ∈ (d :: rest).map (fun m => (get_metric_u64 m key).getD 0) ∧
    (∀ v ∈ (d :: rest).map (fun m => (get_metric_u64 m key).getD 0), v ≤ st.max) ∧
    st.min ∈ (d :: rest).map (fun m => (get_metric_u64 m key).getD 0) ∧
    (∀ v ∈ (d :: rest).map (fun m => (get_metric_u64 m key).getD 0), st.min ≤ v) := by
  cases hfv : get_metric_u64 d key with
  | none => simp [metricStat, hfv] at h
  | some fv =>
    simp only [metricStat, List.head?_cons, hfv, metric_fold_triple,
      Option.some.injEq] at h
    rw [foldl_add_mod _ _ (by norm_num), Nat.zero_add] at h
    subst h
    have hfd : (get_metric_u64 d key).getD 0 = fv := by rw [hfv]; rfl
    refine ⟨rfl, rfl, ?_, ?_, ?_, ?_⟩
    · show List.foldl Nat.max fv
          (List.map (fun m => (get_metric_u64 m key).getD 0) (d :: rest)) ∈
          List.map (fun m => (get_metric_u64 m key).getD 0) (d :: rest)
      rcases foldl_max_mem
          (List.map (fun m => (get_metric_u64 m key).getD 0) (d :: rest)) fv with hm | hm
      · rw [hm, List.map_cons, hfd]
        exact List.mem_cons_self _ _
      · exact hm
    · intro v hv
      exact foldl_max_le_of_mem hv fv
    · show List.foldl Nat.min fv
          (List.map (fun m => (get_metric_u64 m key).getD 0) (d :: rest)) ∈
          List.map (fun m => (get_metric_u64 m key).getD 0) (d :: rest)
      rcases foldl_min_mem
          (List.map (fun m => (get_metric_u64 m key).getD 0) (d :: rest)) fv with hm | hm
      · rw [hm, List.map_cons, hfd]
        exact List.mem_cons_self _ _
      · exact hm
    · intro v hv
      exact foldl_min_le_of_mem hv fv

/-- Lookup into a function's computed metric map. -/
lemma calcFuncStats_lookup (data : List ResourceMetric) (key : String) :
    alGet? (calcFuncStats data).metrics key =
      if key ∈ METRIC_KEYS then metricStat data key else none := by
  rw [show (calcFuncStats data).metrics = METRIC_KEYS.filterMap
      (fun k => (metricStat data k).map (fun st => (k, st))) from rfl]
  exact alGet?_filterMap_tag (metricStat data) METRIC_KEYS (by decide) key

/-- `calc_statistics` on a one-contract, one-function store. -/
lemma calc_statistics_singleton (c f : String) (d : ResourceMetric)
    (rest : List ResourceMetric) :
    calc_statistics [(c, [(f, d :: rest)])] =
      [(c, [(f, calcFuncStats (d :: rest))])] := rfl

/-! ## `max_entry_value_len` lemmas -/

/-- The inner running-maximum loop over one operation's changes. -/
lemma inner_change_fold (changes : List LedgerEntryChange) (acc : Nat) :
    changes.foldl
      (fun max_len change =>
        let len := changeLen change
        if len > max_len then len else max_len) acc =
      (changes.map changeLen).foldl Nat.max acc := by
  induction changes generalizing acc with
  | nil => rfl
  | cons c t ih =>
    simp only [List.foldl_cons, List.map_cons]
    rw [ih, if_gt_eq_max]

/-- The nested loops of `max_entry_value_len` compute a plain maximum over
the flattened change list. -/
lemma outer_change_fold (ops : List OperationMetaV2) (acc : Nat) :
    ops.foldl
      (fun max_len op =>
        op.changes.foldl
          (fun max_len change =>
            let len := changeLen change
            if len > max_len then len else max_len) max_len) acc =
      (((ops.map OperationMetaV2.changes).flatten).map changeLen).foldl Nat.max acc := by
  induction ops generalizing acc with
  | nil => rfl
  | cons op t ih =>
    simp only [List.foldl_cons, List.map_cons, List.flatten_cons, List.map_append,
      List.foldl_append]
    rw [ih, inner_change_fold]

lemma max_entry_value_len_eq (meta : TransactionMetaV4) :
    max_entry_value_len meta = ((allChanges meta).map changeLen).foldl Nat.max 0 := by
  unfold max_entry_value_len allChanges
  exact outer_change_fold meta.operations 0

lemma mem_allChanges {meta : TransactionMetaV4} {c : LedgerEntryChange} :
    c ∈ allChanges meta ↔ ∃ op ∈ meta.operations, c ∈ op.changes := by
  unfold allChanges
  rw [List.mem_flatten]
  constructor
  · rintro ⟨l, hl, hc⟩
    rcases List.mem_map.mp hl with ⟨op, hop, rfl⟩
    exact ⟨op, hop, hc⟩
  · rintro ⟨op, hop, hc⟩
    exact ⟨op.changes, List.mem_map_of_mem _ hop, hc⟩

/-! ## `get_core_metrics` lemmas -/

/-- The topic loop computes whether the tag occurs plus the first topic
matching a known key. -/
lemma foldl_topicFold (strs : List String) (b : Bool) (k : Option String) :
    strs.foldl topicFold (b, k) =
      (b || decide ("core_metrics" ∈ strs),
       k.elim (strs.find? fun t => decide (t ∈ CORE_KEYS)) some) := by
  induction strs generalizing b k with
  | nil => cases k <;> simp
  | cons t rest ih =>
    by_cases ht : t = "core_metrics"
    · subst ht
      rw [List.foldl_cons,
        show topicFold (b, k) "core_metrics" = (true, k) from by simp [topicFold], ih]
      have hnk : "core_metrics" ∉ CORE_KEYS := by decide
      cases k with
      | none => simp [List.find?_cons, hnk, List.mem_cons]
      | some x => simp [List.mem_cons]
    · rw [List.foldl_cons]
      by_cases hk : k = none ∧ t ∈ CORE_KEYS
      · obtain ⟨rfl, htk⟩ := hk
        rw [show topicFold (b, none) t = (b, some t) from by simp [topicFold, ht, htk], ih]
        have hts : "core_metrics" ≠ t := fun h => ht h.symm
        simp [List.find?_cons, htk, List.mem_cons, hts]
      · rw [show topicFold (b, k) t = (b, k) from by
          simp only [topicFold, if_neg ht, if_neg hk], ih]
        have hts : "core_metrics" ≠ t := fun h => ht h.symm
        cases k with
        | some x => simp [List.mem_cons, hts]
        | none =>
          have htk : t ∉ CORE_KEYS := fun hmem => hk ⟨rfl, hmem⟩
          simp [List.find?_cons, htk, List.mem_cons, hts]

/-- `scanTopics` in closed form. -/
lemma scanTopics_eq (topics : List ScVal) :
    scanTopics topics =
      (decide ("core_metrics" ∈ topics.filterMap scval_as_string),
       (topics.filterMap scval_as_string).find? fun t => decide (t ∈ CORE_KEYS)) := by
  unfold scanTopics
  rw [foldl_topicFold]
  rfl

/-- `insert` on the restricted map touches `cpu_insn` only for its key. -/
lemma CoreMap.insert_cpu (m : CoreMap) (k : String) (v : Nat) :
    (CoreMap.insert m k v).cpu_insn = if k = "cpu_insn" then some v else m.cpu_insn := by
  unfold CoreMap.insert
  by_cases h1 : k = "cpu_insn"
  · simp [h1]
  · by_cases h2 : k = "mem_byte"
    · simp [h1, h2]
    · by_cases h3 : k = "ledger_read_byte"
      · simp [h1, h2, h3]
      · by_cases h4 : k = "ledger_write_byte"
        · simp [h1, h2, h3, h4]
        · simp [h1, h2, h3, h4]

/-- `insert` on the restricted map touches `mem_byte` only for its key. -/
lemma CoreMap.insert_mem (m : CoreMap) (k : String) (v : Nat) :
    (CoreMap.insert m k v).mem_byte = if k = "mem_byte" then some v else m.mem_byte := by
  unfold CoreMap.insert
  by_cases h1 : k = "cpu_insn"
  · simp [h1]
  · by_cases h2 : k = "mem_byte"
    · simp [h1, h2]
    · by_cases h3 : k = "ledger_read_byte"
      · simp [h1, h2, h3]
      · by_cases h4 : k = "ledger_write_byte"
        · simp [h1, h2, h3, h4]
        · simp [h1, h2, h3, h4]

/-- One event-loop step, seen through a single field of the map. -/
lemma coreStep_field (map : CoreMap) (te : DiagnosticEvent) (fieldKey : String)
    (proj : CoreMap → Option Nat)
    (hproj : ∀ m k v, proj (CoreMap.insert m k v) =
      if k = fieldKey then some v else proj m) :
    proj (coreStep map te) =
      match coreEventValue fieldKey te with
      | some v => some v
      | none => proj map := by
  obtain ⟨ic, ⟨body⟩⟩ := te
  cases body with
  | V0 v0 =>
    simp only [coreStep, coreEventValue, eventStrings, eventData, scanTopics_eq]
    by_cases hm : "core_metrics" ∈ v0.topics.filterMap scval_as_string
    · rw [if_pos (decide_eq_true hm)]
      cases hf : (v0.topics.filterMap scval_as_string).find? fun t => decide (t ∈ CORE_KEYS) with
      | none => simp
      | some key =>
        cases hd : scval_as_u64 v0.data with
        | none => simp
        | some v =>
          by_cases hkey : key = fieldKey
          · subst hkey
            rw [if_pos ⟨hm, rfl⟩]
            simp [hproj]
          · rw [if_neg (fun hcond => hkey (Option.some.inj hcond.2))]
            simp [hproj, hkey]
    · rw [if_neg (by simp [hm])]
      rw [if_neg (fun hcond => hm hcond.1)]

/-- The whole event loop, seen through a single field: the last contribution
wins, otherwise the initial map value is kept. -/
lemma foldl_coreStep_field (events : List DiagnosticEvent) (map : CoreMap)
    (fieldKey : String) (proj : CoreMap → Option Nat)
    (hproj : ∀ m k v, proj (CoreMap.insert m k v) =
      if k = fieldKey then some v else proj m) :
    proj (events.foldl coreStep map) =
      ((events.filterMap (coreEventValue fieldKey)).getLast?).elim (proj map) some := by
  induction events generalizing map with
  | nil => simp
  | cons te rest ih =>
    rw [List.foldl_cons, ih (coreStep map te)]
    cases hte : coreEventValue fieldKey te with
    | none =>
      simp only [List.filterMap_cons, hte]
      rw [show proj (coreStep map te) = proj map from by
        rw [coreStep_field map te fieldKey proj hproj, hte]]
    | some v =>
      simp only [List.filterMap_cons, hte]
      rw [show proj (coreStep map te) = some v from by
        rw [coreStep_field map te fieldKey proj hproj, hte]]
      cases hfr : rest.filterMap (coreEventValue fieldKey) with
      | nil => simp
      | cons y ys =>
        obtain ⟨w, hw⟩ := Option.isSome_iff_exists.mp
          (List.getLast?_isSome.mpr (List.cons_ne_nil y ys))
        rw [List.getLast?_cons_cons, hw]
        rfl

/-- `get_core_metrics` projects exactly the spec-side last-writer-wins value
for `cpu_insn`. -/
lemma get_core_metrics_cpu (meta : TransactionMetaV4) :
    (get_core_metrics meta).cpu_insn = lastCoreValue meta "cpu_insn" := by
  show (meta.diagnostic_events.foldl coreStep {}).cpu_insn = lastCoreValue meta "cpu_insn"
  rw [foldl_coreStep_field meta.diagnostic_events {} "cpu_insn" CoreMap.cpu_insn
    CoreMap.insert_cpu]
  unfold lastCoreValue
  cases hl : (meta.diagnostic_events.filterMap (coreEventValue "cpu_insn")).getLast? <;>
    simp [hl]

/-- `get_core_metrics` projects exactly the spec-side last-writer-wins value
for `mem_byte`. -/
lemma get_core_metrics_mem (meta : TransactionMetaV4) :
    (get_core_metrics meta).mem_byte = lastCoreValue meta "mem_byte" := by
  show (meta.diagnostic_events.foldl coreStep {}).mem_byte = lastCoreValue meta "mem_byte"
  rw [foldl_coreStep_field meta.diagnostic_events {} "mem_byte" CoreMap.mem_byte
    CoreMap.insert_mem]
  unfold lastCoreValue
  cases hl : (meta.diagnostic_events.filterMap (coreEventValue "mem_byte")).getLast? <;>
    simp [hl]

/-- A core-metric field is present iff some diagnostic event contributes. -/
lemma lastCoreValue_isSome_iff (meta : TransactionMetaV4) (key : String) :
    (lastCoreValue meta key).isSome ↔
      ∃ te ∈ meta.diagnostic_events, (coreEventValue key te).isSome := by
  unfold lastCoreValue
  rw [List.getLast?_isSome]
  constructor
  · intro h
    rcases List.exists_mem_of_ne_nil _ h with ⟨v, hv⟩
    rcases List.mem_filterMap.mp hv with ⟨te, hte, hv2⟩
    exact ⟨te, hte, by rw [hv2]; rfl⟩
  · rintro ⟨te, hte, hsome⟩
    intro hnil
    rw [List.filterMap_eq_nil_iff] at hnil
    rw [hnil te hte] at hsome
    simp at hsome

/-! ## Sample-store lemmas -/

/-- One append touches exactly the targeted `(contract, function)` list. -/
lemma storeGet_appendSample (st : ContractStore) (c f c2 f2 : String)
    (m : ResourceMetric) :
    storeGet (appendSample st c f m) c2 f2 =
      if c2 = c ∧ f2 = f then storeGet st c2 f2 ++ [m] else storeGet st c2 f2 := by
  unfold storeGet appendSample
  by_cases hc : c2 = c
  · subst hc
    rw [alGet?_alUpdate_self]
    simp only [Option.getD_some]
    by_cases hf : f2 = f
    · subst hf
      rw [alGet?_alUpdate_self]
      simp
    · rw [alGet?_alUpdate_ne _ _ _ _ _ hf]
      simp [hf]
  · rw [alGet?_alUpdate_ne _ _ _ _ _ hc]
    simp [hc]

/-- The operation loop of `store_transaction`, as a fold of plain appends
over the qualifying invocations of the operation list. -/
lemma store_ops_fold (ops : List Operation) (store : ContractStore)
    (m : ResourceMetric) :
    ops.foldl
      (fun st operation =>
        match operation.body with
        | OperationBody.InvokeHostFunction invoke_op =>
          match invoke_op.host_function with
          | HostFunction.InvokeContract args =>
            match args.contract_address with
            | ScAddress.Contract strkey => appendSample st strkey args.function_name m
            | _ => st
          | _ => st
        | _ => st)
      store =
    (ops.filterMap opInvocation).foldl (fun st p => appendSample st p.1 p.2 m) store := by
  induction ops generalizing store with
  | nil => rfl
  | cons op t ih =>
    rw [List.foldl_cons, List.filterMap_cons]
    obtain ⟨body⟩ := op
    cases body with
    | OtherOperation => exact ih store
    | InvokeHostFunction iop =>
      obtain ⟨hf⟩ := iop
      cases hf with
      | OtherHostFunction => exact ih store
      | InvokeContract args =>
        obtain ⟨addr, fname⟩ := args
        cases addr with
        | OtherAddress => exact ih store
        | Contract strkey => exact ih (appendSample store strkey fname m)

/-- `store_transaction` is the fold of appends over `txInvocations`. -/
lemma store_transaction_eq_fold (store : ContractStore) (tx : Transaction)
    (m : ResourceMetric) :
    store_transaction store tx m =
      (txInvocations tx).foldl (fun st p => appendSample st p.1 p.2 m) store := by
  unfold store_transaction txInvocations
  cases htx : tx.operations with
  | none => rfl
  | some ops => exact store_ops_fold ops store m

/-- Folding appends over a pair list appends one copy of the metric per
occurrence of the looked-up key pair. -/
lemma storeGet_foldl_append (pairs : List (String × String)) (st : ContractStore)
    (c f : String) (m : ResourceMetric) :
    storeGet (pairs.foldl (fun st p => appendSample st p.1 p.2 m) st) c f =
      storeGet st c f ++ List.replicate (pairs.count (c, f)) m := by
  induction pairs generalizing st with
  | nil => simp
  | cons p t ih =>
    rw [List.foldl_cons, ih, storeGet_appendSample, List.count_cons]
    by_cases hp : c = p.1 ∧ f = p.2
    · rw [if_pos hp]
      have heq : p = (c, f) := by
        obtain ⟨h1, h2⟩ := hp
        cases p
        simp_all
      have hbeq : (p == (c, f)) = true := beq_iff_eq.mpr heq
      rw [hbeq, if_pos rfl, List.append_assoc, List.singleton_append,
        ← List.replicate_succ]
    · rw [if_neg hp]
      have hbeq : (p == (c, f)) = false := by
        apply Bool.eq_false_iff.mpr
        intro hb
        have heq : p = (c, f) := beq_iff_eq.mp hb
        exact hp ⟨(congrArg Prod.fst heq).symm, (congrArg Prod.snd heq).symm⟩
      rw [hbeq]
      simp

/-! ## Report-table lemmas -/

/-- Every row of every rendered function block carries the configured limit
of its key, and that limit is nonzero. -/
lemma load_table_data_rows (statistics : ResultStatistics)
    (limits : List (String × Nat)) (ftd : FuncTableData)
    (h : ftd ∈ load_table_data statistics limits)
    (row : RowData) (hrow : row ∈ ftd.rows) :
    alGet? limits row.key = some row.limit ∧ row.limit ≠ 0 := by
  unfold load_table_data at h
  rw [List.mem_flatten] at h
  obtain ⟨l, hl, hftd⟩ := h
  rw [List.mem_map] at hl
  obtain ⟨ce, hce, rfl⟩ := hl
  rw [List.mem_map] at hftd
  obtain ⟨fe, hfe, rfl⟩ := hftd
  have hrow2 : row ∈ METRIC_KEYS.filterMap (fun key =>
      match alGet? fe.2.metrics key with
      | none => none
      | some stat =>
        match alGet? limits key with
        | none => none
        | some limit =>
          if limit = 0 then none
          else some { key := key, limit := limit, avg := stat.avg,
                      max := stat.max, min := stat.min, sum := stat.sum }) := hrow
  rcases List.mem_filterMap.mp hrow2 with ⟨k, hk, hfn⟩
  cases hstat : alGet? fe.2.metrics k with
  | none => simp [hstat] at hfn
  | some stat =>
    cases hlim : alGet? limits k with
    | none => simp [hstat, hlim] at hfn
    | some limit =>
      simp only [hstat, hlim] at hfn
      by_cases hz : limit = 0
      · rw [if_pos hz] at hfn
        cases hfn
      · rw [if_neg hz] at hfn
        have hrec := Option.some.inj hfn
        subst hrec
        exact ⟨hlim, hz⟩

/-! ## Claim theorems -/

/-- C1: for every non-empty sample list, the aggregator includes a metric key
iff the first sample has that metric; when included it scans all samples with
missing values as zero, producing the wrapped 128-bit sum, the attained max
and min, and `avg = sum / count`, with `times` the list length; the samples
`[{cpu 10}, {cpu 30}, {cpu 20}]` yield `{sum 60, avg 20, max 30, min 10}`
with `times = 3`, and `[{cpu none}, {cpu 50}]` yield no `cpu_insns` key. -/
theorem claim_C1_aggregation (c f key : String) (d : ResourceMetric)
    (rest : List ResourceMetric) :
    calc_statistics [(c, [(f, d :: rest)])] = [(c, [(f, calcFuncStats (d :: rest))])] ∧
    (calcFuncStats (d :: rest)).times = (d :: rest).length ∧
    ((alGet? (calcFuncStats (d :: rest)).metrics key).isSome ↔
      (get_metric_u64 d key).isSome) ∧
    (∀ st, alGet? (calcFuncStats (d :: rest)).metrics key = some st →
      st.sum = ((d :: rest).map (fun s => (get_metric_u64 s key).getD 0)).sum % 2 ^ 128 ∧
      st.avg = (st.sum : ℚ) / ((d :: rest).length : ℚ) ∧
      st.max ∈ (d :: rest).map (fun s => (get_metric_u64 s key).getD 0) ∧
      (∀ v ∈ (d :: rest).map (fun s => (get_metric_u64 s key).getD 0), v ≤ st.max) ∧
      st.min ∈ (d :: rest).map (fun s => (get_metric_u64 s key).getD 0) ∧
      (∀ v ∈ (d :: rest).map (fun s => (get_metric_u64 s key).getD 0), st.min ≤ v)) ∧
    alGet? (calcFuncStats [cpuSample 10, cpuSample 30, cpuSample 20]).metrics
      "cpu_insns" = some { avg := 20, max := 30, min := 10, sum := 60 } ∧
    (calcFuncStats [cpuSample 10, cpuSample 30, cpuSample 20]).times = 3 ∧
    alGet? (calcFuncStats [emptySample, cpuSample 50]).metrics "cpu_insns" = none := by
  refine ⟨calc_statistics_singleton c f d rest, rfl, ?_, ?_, ?_, rfl, ?_⟩
  · rw [calcFuncStats_lookup]
    by_cases hmem : key ∈ METRIC_KEYS
    · rw [if_pos hmem, metricStat_isSome]
    · rw [if_neg hmem, get_metric_u64_not_mem d key hmem]
      simp
  · intro st hst
    rw [calcFuncStats_lookup] at hst
    by_cases hmem : key ∈ METRIC_KEYS
    · rw [if_pos hmem] at hst
      exact metricStat_spec d rest key st hst
    · rw [if_neg hmem] at hst
      cases hst
  · norm_num [calcFuncStats, metricStat, METRIC_KEYS, get_metric_u64, cpuSample, alGet?]
  · norm_num [calcFuncStats, metricStat, METRIC_KEYS, get_metric_u64, cpuSample,
      emptySample, alGet?]

/-- Witness for C1 at the concrete three-sample input. -/
theorem claim_C1_aggregation_witness :
    ({ avg := 20, max := 30, min := 10, sum := 60 } : MetricStatistics).sum =
      ([cpuSample 10, cpuSample 30, cpuSample 20].map
        (fun s => (get_metric_u64 s "cpu_insns").getD 0)).sum % 2 ^ 128 ∧
    ({ avg := 20, max := 30, min := 10, sum := 60 } : MetricStatistics).max ∈
      [cpuSample 10, cpuSample 30, cpuSample 20].map
        (fun s => (get_metric_u64 s "cpu_insns").getD 0) := by
  have h := claim_C1_aggregation "C" "swap" "cpu_insns" (cpuSample 10)
    [cpuSample 30, cpuSample 20]
  have hspec := h.2.2.2.1 { avg := 20, max := 30, min := 10, sum := 60 } h.2.2.2.2.1
  exact ⟨hspec.1, hspec.2.2.1⟩

/-- C2: classification computes `percent = 100 * value / limit` and yields
`Error` iff strictly above `error_ratio * 100`, else `Danger` iff strictly
above `danger_ratio * 100`, else `Normal`; with `limit = 100`,
`danger = 0.8`, `error = 1.0`: `80` is `Normal`, `80.01` is `Danger`,
`100.01` is `Error`; the integer cells apply the identical rule. -/
theorem claim_C2_classification (value : ℚ) (limit : Nat) (cursors : LimitsCursors)
    (hl : 0 < limit) :
    (format_cell_f64_severity value limit cursors = Severity.Error ↔
      100 * value / (limit : ℚ) > cursors.error * 100) ∧
    (format_cell_f64_severity value limit cursors = Severity.Danger ↔
      ¬ 100 * value / (limit : ℚ) > cursors.error * 100 ∧
        100 * value / (limit : ℚ) > cursors.danger * 100) ∧
    (format_cell_f64_severity value limit cursors = Severity.Normal ↔
      ¬ 100 * value / (limit : ℚ) > cursors.error * 100 ∧
        ¬ 100 * value / (limit : ℚ) > cursors.danger * 100) ∧
    (∀ n : Nat, format_cell_u64_severity n limit cursors =
      format_cell_f64_severity (n : ℚ) limit cursors) ∧
    format_cell_f64_severity 80 100 { danger := 4 / 5, error := 1 } =
      Severity.Normal ∧
    format_cell_f64_severity (8001 / 100) 100 { danger := 4 / 5, error := 1 } =
      Severity.Danger ∧
    format_cell_f64_severity (10001 / 100) 100 { danger := 4 / 5, error := 1 } =
      Severity.Error := by
  have hperc : value / (limit : ℚ) * 100 = 100 * value / (limit : ℚ) := by ring
  refine ⟨?_, ?_, ?_, fun n => rfl, ?_, ?_, ?_⟩
  · unfold format_cell_f64_severity
    rw [hperc]
    dsimp only
    split_ifs with h1 h2 <;> simp_all
  · unfold format_cell_f64_severity
    rw [hperc]
    dsimp only
    split_ifs with h1 h2 <;> simp_all
  · unfold format_cell_f64_severity
    rw [hperc]
    dsimp only
    split_ifs with h1 h2 <;> simp_all
  · norm_num [format_cell_f64_severity]
  · norm_num [format_cell_f64_severity]
  · norm_num [format_cell_f64_severity]

/-- Witness for C2 at `limit = 100`, the standard cursors, and the boundary
values of the claim. -/
theorem claim_C2_classification_witness :
    format_cell_f64_severity 80 100 { danger := 4 / 5, error := 1 } =
      Severity.Normal ∧
    format_cell_f64_severity (8001 / 100) 100 { danger := 4 / 5, error := 1 } =
      Severity.Danger ∧
    format_cell_f64_severity (10001 / 100) 100 { danger := 4 / 5, error := 1 } =
      Severity.Error ∧
    format_cell_u64_severity 101 100 { danger := 4 / 5, error := 1 } =
      format_cell_f64_severity ((101 : Nat) : ℚ) 100 { danger := 4 / 5, error := 1 } := by
  have h := claim_C2_classification 80 100 { danger := 4 / 5, error := 1 } (by norm_num)
  exact ⟨h.2.2.2.2.1, h.2.2.2.2.2.1, h.2.2.2.2.2.2, h.2.2.2.1 101⟩

/-- C3: on every successful extraction the simulation data and the re-encoded
envelope were present, `cpu_insns`/`mem_bytes` are populated iff a
`core_metrics` diagnostic event supplies them, and the remaining six fields
equal exactly their sources (footprint cardinalities, byte estimates, the
change-record maximum, and the envelope length). -/
theorem claim_C3_field_presence (sim_tx : SimulateTransactionResponse)
    (tx_result : GetTransactionResponse) (meta : TransactionMetaV4)
    (m : ResourceMetric) (h : handle_meta_v4 sim_tx tx_result meta = .ok m) :
    ∃ td bytes, sim_tx.transactionData = some td ∧
      tx_result.envelopeXdr = some bytes ∧
      m.cpu_insns = lastCoreValue meta "cpu_insn" ∧
      (m.cpu_insns.isSome ↔ ∃ te ∈ meta.diagnostic_events,
        (coreEventValue "cpu_insn" te).isSome) ∧
      m.mem_bytes = lastCoreValue meta "mem_byte" ∧
      (m.mem_bytes.isSome ↔ ∃ te ∈ meta.diagnostic_events,
        (coreEventValue "mem_byte" te).isSome) ∧
      m.entry_bytes = some (max_entry_value_len meta) ∧
      m.entry_reads = some td.resources.footprint.read_only.length ∧
      m.entry_writes = some td.resources.footprint.read_write.length ∧
      m.read_bytes = some td.resources.disk_read_bytes ∧
      m.write_bytes = some td.resources.write_bytes ∧
      m.min_txn_bytes = some bytes.length := by
  cases hsim : sim_tx.transactionData with
  | none =>
    unfold handle_meta_v4 at h
    rw [hsim] at h
    simp at h
  | some td =>
    cases henv : tx_result.envelopeXdr with
    | none =>
      unfold handle_meta_v4 at h
      rw [hsim, henv] at h
      simp at h
    | some bytes =>
      unfold handle_meta_v4 at h
      rw [hsim, henv] at h
      simp only [Except.ok.injEq] at h
      subst h
      refine ⟨td, bytes, rfl, rfl, get_core_metrics_cpu meta, ?_,
        get_core_metrics_mem meta, ?_, rfl, rfl, rfl, rfl, rfl, rfl⟩
      · show ((get_core_metrics meta).cpu_insn).isSome ↔
          ∃ te ∈ meta.diagnostic_events, (coreEventValue "cpu_insn" te).isSome
        rw [get_core_metrics_cpu meta]
        exact lastCoreValue_isSome_iff meta "cpu_insn"
      · show ((get_core_metrics meta).mem_byte).isSome ↔
          ∃ te ∈ meta.diagnostic_events, (coreEventValue "mem_byte" te).isSome
        rw [get_core_metrics_mem meta]
        exact lastCoreValue_isSome_iff meta "mem_byte"

/-- Witness for C3 at a concrete successful extraction whose only diagnostic
event reports `cpu_insn = 42`. -/
theorem claim_C3_field_presence_witness :
    ∃ td bytes, simOk.transactionData = some td ∧
      goodTxResult.envelopeXdr = some bytes ∧
      cpu42Metric.cpu_insns = lastCoreValue cpuMeta "cpu_insn" ∧
      (cpu42Metric.cpu_insns.isSome ↔ ∃ te ∈ cpuMeta.diagnostic_events,
        (coreEventValue "cpu_insn" te).isSome) ∧
      cpu42Metric.mem_bytes = lastCoreValue cpuMeta "mem_byte" ∧
      (cpu42Metric.mem_bytes.isSome ↔ ∃ te ∈ cpuMeta.diagnostic_events,
        (coreEventValue "mem_byte" te).isSome) ∧
      cpu42Metric.entry_bytes = some (max_entry_value_len cpuMeta) ∧
      cpu42Metric.entry_reads = some td.resources.footprint.read_only.length ∧
      cpu42Metric.entry_writes = some td.resources.footprint.read_write.length ∧
      cpu42Metric.read_bytes = some td.resources.disk_read_bytes ∧
      cpu42Metric.write_bytes = some td.resources.write_bytes ∧
      cpu42Metric.min_txn_bytes = some bytes.length :=
  claim_C3_field_presence simOk goodTxResult cpuMeta cpu42Metric rfl

/-- C4 (evaluation of the code at the failing input): with two completed
successful calls whose first processed receipt lacks metadata, the report
loop propagates `MissingMeta` through the `?` operator and aborts, recording
nothing; processing the remaining call alone would have recorded its sample.
The claim's expected continue-on-error behavior does not hold. -/
theorem claim_C4_abort_on_error :
    processResults hashConc [("h1", some badTxResult), ("h2", some goodTxResult)] [] =
      .error .MissingMeta ∧
    processResults hashConc [("h2", some goodTxResult)] [] =
      .ok [("C", [("f", [zeroMetric])])] := by
  constructor
  · rfl
  · rfl

/-- C5: `handle_transaction` fails with `MissingMeta` exactly when the
receipt has no metadata, with `UnsupportedMeta` exactly when the metadata is
present but not version 4, and with `NoTransactionData` exactly when the
metadata is version 4 and the simulation carries no transaction data. -/
theorem claim_C5_error_boundaries (sim_tx : SimulateTransactionResponse)
    (tx_result : GetTransactionResponse) :
    (handle_transaction sim_tx tx_result = .error .MissingMeta ↔
      tx_result.resultMeta = none) ∧
    (handle_transaction sim_tx tx_result = .error .UnsupportedMeta ↔
      ∃ meta, tx_result.resultMeta = some meta ∧ meta.toV4? = none) ∧
    (handle_transaction sim_tx tx_result = .error .NoTransactionData ↔
      ∃ m4, tx_result.resultMeta = some (.V4 m4) ∧ sim_tx.transactionData = none) := by
  unfold handle_transaction
  cases hrm : tx_result.resultMeta with
  | none => simp
  | some meta =>
    cases meta with
    | V0 => simp [TransactionMeta.toV4?]
    | V1 => simp [TransactionMeta.toV4?]
    | V2 => simp [TransactionMeta.toV4?]
    | V3 => simp [TransactionMeta.toV4?]
    | V4 m4 =>
      unfold handle_meta_v4
      cases hsim : sim_tx.transactionData with
      | none => simp [TransactionMeta.toV4?]
      | some td =>
        cases henv : tx_result.envelopeXdr with
        | none => simp [TransactionMeta.toV4?]
        | some bytes => simp [TransactionMeta.toV4?]

/-- C6: `entry_bytes` is the maximum of the per-record encoded lengths over
all change records of all operations (`Created`/`Updated` contribute their
encoded post-value length, everything else contributes 0), and an empty
change-record list gives 0. -/
theorem claim_C6_entry_bytes_max (meta : TransactionMetaV4) :
    max_entry_value_len meta = ((allChanges meta).map changeLen).foldl Nat.max 0 ∧
    (∀ op ∈ meta.operations, ∀ ch ∈ op.changes,
      changeLen ch ≤ max_entry_value_len meta) ∧
    (max_entry_value_len meta = 0 ∨
      ∃ op ∈ meta.operations, ∃ ch ∈ op.changes,
        changeLen ch = max_entry_value_len meta) ∧
    (allChanges meta = [] → max_entry_value_len meta = 0) ∧
    (∀ e, changeLen (.Created e) = ((e.data.toXdr).map List.length).getD 0) ∧
    (∀ e, changeLen (.Updated e) = ((e.data.toXdr).map List.length).getD 0) ∧
    (∀ e, changeLen (.State e) = 0) ∧
    (∀ e, changeLen (.Restored e) = 0) ∧
    changeLen .Removed = 0 := by
  refine ⟨max_entry_value_len_eq meta, ?_, ?_, ?_, fun e => rfl, fun e => rfl,
    fun e => rfl, fun e => rfl, rfl⟩
  · intro op hop ch hch
    rw [max_entry_value_len_eq]
    exact foldl_max_le_of_mem
      (List.mem_map_of_mem _ (mem_allChanges.mpr ⟨op, hop, hch⟩)) 0
  · rw [max_entry_value_len_eq]
    rcases foldl_max_mem ((allChanges meta).map changeLen) 0 with h | h
    · left
      exact h
    · right
      rcases List.mem_map.mp h with ⟨ch, hch, hceq⟩
      rcases mem_allChanges.mp hch with ⟨op, hop, hchop⟩
      exact ⟨op, hop, ch, hchop, hceq⟩
  · intro hnil
    rw [max_entry_value_len_eq, hnil]
    rfl

/-- Witness for C6 at the empty metadata. -/
theorem claim_C6_entry_bytes_max_witness :
    allChanges emptyMeta = [] ∧ max_entry_value_len emptyMeta = 0 := by
  have h := claim_C6_entry_bytes_max emptyMeta
  exact ⟨rfl, h.2.2.2.1 rfl⟩

/-- C7: the extracted `cpu_insn`/`mem_byte` values are exactly the last
contribution among diagnostic events tagged `core_metrics` whose first
known-key topic names the field and whose payload decodes from the tagged
numeric variants; 128-bit payloads are taken as their low word only when the
high word is zero and are otherwise skipped. -/
theorem claim_C7_core_metrics_scan (meta : TransactionMetaV4) :
    (get_core_metrics meta).cpu_insn = lastCoreValue meta "cpu_insn" ∧
    (get_core_metrics meta).mem_byte = lastCoreValue meta "mem_byte" ∧
    (∀ p : UInt128Parts, scval_as_u64 (.U128 p) =
      if p.hi = 0 then some p.lo else none) ∧
    (∀ p : Int128Parts, scval_as_u64 (.I128 p) =
      if p.hi = 0 then some p.lo else none) ∧
    (∀ n : Nat, scval_as_u64 (.U32 n) = some n) ∧
    (∀ n : Nat, scval_as_u64 (.U64 n) = some n) ∧
    (∀ n : Int, scval_as_u64 (.I32 n) = if 0 ≤ n then some n.toNat else none) ∧
    (∀ n : Int, scval_as_u64 (.I64 n) = if 0 ≤ n then some n.toNat else none) ∧
    (∀ s : String, scval_as_u64 (.Symbol s) = none) ∧
    scval_as_u64 .Other = none :=
  ⟨get_core_metrics_cpu meta, get_core_metrics_mem meta, fun _ => rfl, fun _ => rfl,
    fun _ => rfl, fun _ => rfl, fun _ => rfl, fun _ => rfl, fun _ => rfl, rfl⟩

/-- C8: `record` appends one clone of the metric to
`store[contract][function]` per direct contract-invocation operation (so a
two-invocation batch appends twice), skips every other operation kind, and
leaves the store unchanged when the transaction has no operation list. -/
theorem claim_C8_record (store : ContractStore) (tx : Transaction)
    (m : ResourceMetric) (c f : String) :
    storeGet (store_transaction store tx m) c f =
      storeGet store c f ++ List.replicate ((txInvocations tx).count (c, f)) m ∧
    (tx.operations = none → store_transaction store tx m = store) ∧
    storeGet (store_transaction [] txBatch2 m) "C" "swap" = [m, m] := by
  refine ⟨?_, ?_, ?_⟩
  · rw [store_transaction_eq_fold, storeGet_foldl_append]
  · intro hnone
    unfold store_transaction
    rw [hnone]
  · rfl

/-- Witness for C8: the no-operations transaction leaves the store unchanged,
and the two-invocation batch appends the sample twice. -/
theorem claim_C8_record_witness :
    store_transaction [] txNoOps sampleMetric = [] ∧
    storeGet (store_transaction [] txBatch2 sampleMetric) "C" "swap" =
      [sampleMetric, sampleMetric] := by
  have h := claim_C8_record [] txNoOps sampleMetric "C" "swap"
  have h2 := claim_C8_record [] txBatch2 sampleMetric "C" "swap"
  exact ⟨h.2.1 rfl, h2.2.2⟩

/-- C9: a metric key whose configured limit is zero is dropped while building
the table data — no row of any rendered function block carries that key, and
every surviving row has a nonzero limit, so no division by a zero limit is
ever classified. -/
theorem claim_C9_zero_limit (stats : ResultStatistics)
    (limits : List (String × Nat)) (key : String)
    (h : alGet? limits key = some 0) :
    (∀ ftd ∈ load_table_data stats limits, ∀ row ∈ ftd.rows, row.key ≠ key) ∧
    (∀ ftd ∈ load_table_data stats limits, ∀ row ∈ ftd.rows, row.limit ≠ 0) := by
  constructor
  · intro ftd hftd row hrow hkey
    obtain ⟨hlim, hnz⟩ := load_table_data_rows stats limits ftd hftd row hrow
    rw [hkey, h] at hlim
    exact hnz (Option.some.inj hlim).symm
  · intro ftd hftd row hrow
    exact (load_table_data_rows stats limits ftd hftd row hrow).2

/-- Witness for C9 at a statistics table carrying a `cpu_insns` entry while
its configured limit is zero. -/
theorem claim_C9_zero_limit_witness :
    alGet? limitsZeroCpu "cpu_insns" = some 0 ∧
    (∀ ftd ∈ load_table_data statsZeroLimit limitsZeroCpu, ∀ row ∈ ftd.rows,
      row.key ≠ "cpu_insns") := by
  have h := claim_C9_zero_limit statsZeroLimit limitsZeroCpu "cpu_insns" rfl
  exact ⟨rfl, h.1⟩

/-- C10: a change record whose post-value fails to encode contributes length
0 and extraction still succeeds, while a failing envelope re-encoding fails
the whole extraction with the wrapped XDR error. -/
theorem claim_C10_encode_failure_scope (sim_tx : SimulateTransactionResponse)
    (tx_result : GetTransactionResponse) (meta : TransactionMetaV4)
    (td : SorobanTransactionData) (bytes : List Nat)
    (hsim : sim_tx.transactionData = some td)
    (henv : tx_result.envelopeXdr = some bytes) :
    (∃ m, handle_meta_v4 sim_tx tx_result meta = .ok m ∧
      m.entry_bytes = some (max_entry_value_len meta)) ∧
    (∀ e : LedgerEntry, e.data.toXdr = none →
      changeLen (.Created e) = 0 ∧ changeLen (.Updated e) = 0) ∧
    (∀ tx2 : GetTransactionResponse, tx2.envelopeXdr = none →
      handle_meta_v4 sim_tx tx2 meta = .error .SDKXdrError) := by
  refine ⟨?_, ?_, ?_⟩
  · unfold handle_meta_v4
    rw [hsim, henv]
    exact ⟨_, rfl, rfl⟩
  · intro e he
    constructor
    · simp [changeLen, he]
    · simp [changeLen, he]
  · intro tx2 h2
    unfold handle_meta_v4
    rw [hsim, h2]

/-- Witness for C10 at a metadata value whose only change record fails to
encode: extraction succeeds and the maximum is 0. -/
theorem claim_C10_encode_failure_scope_witness :
    (∃ m, handle_meta_v4 simOk goodTxResult failMeta = .ok m ∧
      m.entry_bytes = some (max_entry_value_len failMeta)) ∧
    max_entry_value_len failMeta = 0 := by
  have h := claim_C10_encode_failure_scope simOk goodTxResult failMeta _ _ rfl rfl
  exact ⟨h.1, rfl⟩
